import Mathlib

/-!
Verification of the s3-plugin-webpack sources (src/helpers.ts, src/s3_plugin.ts)
against their natural-language specification.  Strings are embedded as Lean
strings; where a proof needs induction we work on the underlying `List Char`.
-/

namespace S3P

/-- Truthiness of the characters the replace pattern in `addTrailingS3Sep`
(helpers.ts line 26) treats as end-of-path markers: the regex is
`\/?(\?|#|$)`, so a match is an optional `/` followed by `?`, `#`, or the
end of the string. -/
def isQF (c : Char) : Bool := c == '?' || c == '#'

/-- Embedding of `fPath.replace(/\/?(\?|#|$)/, '/$1')` (helpers.ts line 26):
JavaScript `String.replace` with a non-global regex rewrites the leftmost
match only.  Scanning left to right, at position `i` the regex matches when
either `s[i]` is `/` and `s[i+1]` is `?`/`#`/end-of-string (greedy `\/?`
branch), or `s[i]` is `?`/`#`, or `i` is the end of the string; the match is
replaced by `/` followed by the captured group. -/
def sepRepl : List Char → List Char
  | [] => ['/']
  | c :: rest =>
    if c = '/' then
      match rest with
      | [] => ['/']
      | d :: t => if isQF d then '/' :: d :: t else '/' :: sepRepl (d :: t)
    else if isQF c then '/' :: c :: rest
    else c :: sepRepl rest

/-- helpers.ts lines 25-27: `fPath ? fPath.replace(/\/?(\?|#|$)/, '/$1') : fPath`.
An empty string is falsy in JavaScript and is returned unchanged. -/
def addTrailingS3Sep (s : String) : String :=
  if s.data.isEmpty then s else ⟨sepRepl s.data⟩

theorem sepRepl_slash_nil : sepRepl ['/'] = ['/'] := rfl

theorem sepRepl_slash_qf (d : Char) (t : List Char) (h : isQF d = true) :
    sepRepl ('/' :: d :: t) = '/' :: d :: t := by
  rw [sepRepl.eq_def]; simp [h]

theorem sepRepl_slash_nqf (d : Char) (t : List Char) (h : isQF d = false) :
    sepRepl ('/' :: d :: t) = '/' :: sepRepl (d :: t) := by
  rw [sepRepl.eq_def]; simp [h]

theorem sepRepl_qf (c : Char) (rest : List Char) (hc : c ≠ '/') (h : isQF c = true) :
    sepRepl (c :: rest) = '/' :: c :: rest := by
  rw [sepRepl.eq_def]; simp [hc, h]

theorem sepRepl_other (c : Char) (rest : List Char) (hc : c ≠ '/') (h : isQF c = false) :
    sepRepl (c :: rest) = c :: sepRepl rest := by
  rw [sepRepl.eq_def]; simp [hc, h]

theorem sepRepl_ne_nil (l : List Char) : sepRepl l ≠ [] := by
  cases l with
  | nil => simp [sepRepl]
  | cons c rest =>
    by_cases hc : c = '/'
    · subst hc
      cases rest with
      | nil => simp [sepRepl_slash_nil]
      | cons d t =>
        by_cases hd : isQF d = true
        · rw [sepRepl_slash_qf d t hd]; simp
        · rw [sepRepl_slash_nqf d t (by simpa using hd)]; simp
    · by_cases hq : isQF c = true
      · rw [sepRepl_qf c rest hc hq]; simp
      · rw [sepRepl_other c rest hc (by simpa using hq)]; simp

theorem sepRepl_head (c : Char) (rest : List Char) (h : isQF c = false) :
    ∃ ys, sepRepl (c :: rest) = c :: ys := by
  by_cases hc : c = '/'
  · subst hc
    cases rest with
    | nil => exact ⟨[], sepRepl_slash_nil⟩
    | cons d t =>
      by_cases hd : isQF d = true
      · exact ⟨d :: t, sepRepl_slash_qf d t hd⟩
      · exact ⟨sepRepl (d :: t), sepRepl_slash_nqf d t (by simpa using hd)⟩
  · exact ⟨sepRepl rest, sepRepl_other c rest hc h⟩

theorem sepRepl_idem (l : List Char) : sepRepl (sepRepl l) = sepRepl l := by
  induction l with
  | nil => rfl
  | cons c rest ih =>
    by_cases hc : c = '/'
    · subst hc
      cases rest with
      | nil => rw [sepRepl_slash_nil, sepRepl_slash_nil]
      | cons d t =>
        by_cases hd : isQF d = true
        · rw [sepRepl_slash_qf d t hd, sepRepl_slash_qf d t hd]
        · have hd' : isQF d = false := by simpa using hd
          obtain ⟨ys, hys⟩ := sepRepl_head d t hd'
          rw [sepRepl_slash_nqf d t hd', hys, sepRepl_slash_nqf d ys hd', ← hys, ih]
    · by_cases hq : isQF c = true
      · rw [sepRepl_qf c rest hc hq, sepRepl_slash_qf c rest hq]
      · have hq' : isQF c = false := by simpa using hq
        rw [sepRepl_other c rest hc hq', sepRepl_other c (sepRepl rest) hc hq', ih]

theorem addTrailingS3Sep_idem (s : String) :
    addTrailingS3Sep (addTrailingS3Sep s) = addTrailingS3Sep s := by
  unfold addTrailingS3Sep
  by_cases h : s.data.isEmpty
  · simp [h]
  · simp only [h, if_false, reduceIte]
    have hne : sepRepl s.data ≠ [] := sepRepl_ne_nil s.data
    have : (String.mk (sepRepl s.data)).data.isEmpty = false := by
      simp [List.isEmpty_iff, hne]
    simp only [this, Bool.false_eq_true, if_false, reduceIte]
    exact congrArg String.mk (sepRepl_idem s.data)

/-- Claim C9: addTrailingS3Sep maps "test" to "test/", is idempotent on every
string, and maps the empty string to itself. -/
theorem C9_addTrailingS3Sep_roundtrip :
    addTrailingS3Sep "test" = "test/" ∧
    (∀ s : String, addTrailingS3Sep (addTrailingS3Sep s) = addTrailingS3Sep s) ∧
    addTrailingS3Sep "" = "" :=
  ⟨by decide, addTrailingS3Sep_idem, by decide⟩

/-- s3_plugin.ts line 103 (constructor):
`basePath = basePath ? addTrailingS3Sep(basePath) : ''`.
A falsy (empty) base path becomes the empty string. -/
def constructorBasePath (basePath : String) : String :=
  if basePath.data.isEmpty then "" else addTrailingS3Sep basePath

/-- s3_plugin.ts lines 279-283 (`transformBasePath`) with the default identity
transform (helpers.ts line 23, `DEFAULT_TRANSFORM`): the stored base path is
passed through the transform and then through `addTrailingS3Sep` again; the
result replaces `options.basePath` before any upload starts. -/
def resolvedBasePath (basePath : String) : String :=
  addTrailingS3Sep (constructorBasePath basePath)

/-- s3_plugin.ts line 357: `if (Key[0] === '/') Key = Key.substr(1)`.
Indexing an empty string yields `undefined`, which is not `'/'`. -/
def stripLeadingSepL : List Char → List Char
  | [] => []
  | c :: rest => if c = '/' then rest else c :: rest

/-- s3_plugin.ts lines 351 and 357 (`uploadFile`): the storage key is
`basePath + fileName` with a single leading `/` stripped, where `basePath`
is `options.basePath` as it stands when `uploadFile` runs. -/
def computeKey (basePath fileName : String) : String :=
  ⟨stripLeadingSepL (basePath ++ fileName).data⟩

/-- The storage key `uploadFile` passes to the client for a configured base
path and a file name, after the constructor and `transformBasePath` have
normalized the base path (default transform). -/
def uploadKey (configBasePath fileName : String) : String :=
  computeKey (resolvedBasePath configBasePath) fileName

/-- Whether a string begins with the storage separator. -/
def headIsSep (s : String) : Bool :=
  s.data.head? == some '/'

/-- Whether a string begins with two storage separators. -/
def headTwoSep (s : String) : Bool :=
  s.data.take 2 == ['/', '/']

/-- The spec sentence, stated on its own terms: storage key = resolved base
path concatenated with the file name, stripping a single leading separator
if present. -/
def specStorageKey (resolvedBase fileName : String) : String :=
  if headIsSep (resolvedBase ++ fileName) then ⟨(resolvedBase ++ fileName).data.tail⟩
  else resolvedBase ++ fileName

theorem stripLeadingSepL_eq (l : List Char) :
    stripLeadingSepL l = if (l.head? == some '/') then l.tail else l := by
  cases l with
  | nil => simp [stripLeadingSepL]
  | cons c rest =>
    by_cases hc : c = '/'
    · subst hc; simp [stripLeadingSepL]
    · simp [stripLeadingSepL, hc]

theorem stripLeadingSepL_id (l : List Char) (h : (l.head? == some '/') = false) :
    stripLeadingSepL l = l := by
  rw [stripLeadingSepL_eq, h]
  simp

theorem computeKey_eq_spec (b f : String) : computeKey b f = specStorageKey b f := by
  unfold computeKey specStorageKey
  rw [stripLeadingSepL_eq]
  by_cases h : headIsSep (b ++ f) = true
  · have h' : ((b ++ f).data.head? == some '/') = true := h
    simp only [h, h', if_true]
  · have hf : headIsSep (b ++ f) = false := eq_false_of_ne_true h
    have h' : ((b ++ f).data.head? == some '/') = false := hf
    simp only [hf, h', Bool.false_eq_true, if_false]

/-- Claim C3: uploadFile computes the storage key as the resolved base path
concatenated with the file name, stripping a single leading separator when
present; with base path "test" and file name "a.js" the key is "test/a.js",
and with an empty base path a file name without a leading separator is the
key unchanged. -/
theorem C3_storage_key :
    (∀ b f : String, uploadKey b f = specStorageKey (resolvedBasePath b) f) ∧
    uploadKey "test" "a.js" = "test/a.js" ∧
    (∀ f : String, headIsSep f = false → uploadKey "" f = f) := by
  refine ⟨fun b f => computeKey_eq_spec (resolvedBasePath b) f, by decide, fun f hf => ?_⟩
  have hbase : resolvedBasePath "" = "" := by decide
  have happ : ("" : String) ++ f = f := by
    apply String.ext
    simp [String.data_append]
  rw [uploadKey, hbase, computeKey, happ]
  apply String.ext
  exact stripLeadingSepL_id f.data hf

/-- Witness for C3: the empty-base-path clause at the concrete file name
"x.js". -/
theorem C3_storage_key_witness :
    headIsSep "x.js" = false ∧ uploadKey "" "x.js" = "x.js" :=
  ⟨by decide, C3_storage_key.2.2 "x.js" (by decide)⟩

/-- Claim C2 fails as stated: uploadFile strips only a single leading
separator, so a configured base path beginning with two separators survives
normalization and yields a storage key that begins with `/`.  Concretely,
base path "//b" resolves to "//b/", and the key for file "a.js" is
"/b/a.js". -/
theorem C2_counterexample :
    uploadKey "//b" "a.js" = "/b/a.js" ∧ headIsSep (uploadKey "//b" "a.js") = true := by
  constructor <;> decide

/-- Claim C2 amended: the storage key uploadFile passes to the client never
begins with `/` provided the resolved base path concatenated with the file
name does not begin with two separators (only a single leading separator is
stripped). -/
theorem strip_no_two_sep (l : List Char) (h : (l.take 2 == ['/', '/']) = false) :
    ((stripLeadingSepL l).head? == some '/') = false := by
  cases l with
  | nil => simp [stripLeadingSepL]
  | cons c rest =>
    by_cases hc : c = '/'
    · subst hc
      rw [stripLeadingSepL_eq]
      simp only [List.head?_cons, beq_self_eq_true, if_true, List.tail_cons]
      cases rest with
      | nil => simp
      | cons d t =>
        have hd : d ≠ '/' := by
          intro hdd
          subst hdd
          simp at h
        simp [hd]
    · rw [stripLeadingSepL_eq]
      simp [hc]

theorem C2_amended_no_leading_sep (b f : String)
    (h : headTwoSep (resolvedBasePath b ++ f) = false) :
    headIsSep (uploadKey b f) = false := by
  have h' : ((resolvedBasePath b ++ f).data.take 2 == ['/', '/']) = false := h
  exact strip_no_two_sep (resolvedBasePath b ++ f).data h'

/-- Witness for the amended C2 at base path "test" and file name "a.js". -/
theorem C2_amended_witness :
    headTwoSep (resolvedBasePath "test" ++ "a.js") = false ∧
    headIsSep (uploadKey "test" "a.js") = false :=
  ⟨by decide, C2_amended_no_leading_sep "test" "a.js" (by decide)⟩

/-- helpers.ts line 57: `Rule = string | RegExp | ((input: string) => boolean)`,
and `testRule` also accepts an array of rules.  A compiled regular expression
is embedded as its test function (`String → Bool`); a predicate function as
the truthiness (`!!`) of its result; the `other` constructor stands for a
value of any unsupported runtime shape. -/
inductive RuleV where
  | regex (test : String → Bool)
  | strPat (pattern : String)
  | func (f : String → Bool)
  | list (rs : List RuleV)
  | other

mutual

/-- helpers.ts lines 59-71 (`testRule`): dispatch on the runtime shape of the
rule.  `compile` stands for `new RegExp` followed by `.test`, i.e. compiling
a pattern string and testing it against the subject. -/
def testRule (compile : String → String → Bool) : RuleV → String → Except String Bool
  | .regex test, subject => .ok (test subject)
  | .func f, subject => .ok (f subject)
  | .list rs, subject => testRuleEvery compile rs subject
  | .strPat p, subject => .ok (compile p subject)
  | .other, _ => .error "Invalid include / exclude rule"

/-- `rule.every((condition) => testRule(condition, subject))` unrolled:
`Array.prototype.every` stops at the first falsy member result and lets an
exception thrown by a member propagate. -/
def testRuleEvery (compile : String → String → Bool) :
    List RuleV → String → Except String Bool
  | [], _ => .ok true
  | r :: rs, subject =>
    match testRule compile r subject with
    | .error e => .error e
    | .ok false => .ok false
    | .ok true => testRuleEvery compile rs subject

end

/-- The boolean value of a rule evaluation, reading an error as `false`;
only used to state results about error-free evaluations. -/
def evalRuleB (compile : String → String → Bool) (r : RuleV) (subject : String) : Bool :=
  match testRule compile r subject with
  | .ok b => b
  | .error _ => false

theorem testRuleEvery_all (compile : String → String → Bool) (subject : String)
    (rs : List RuleV) (h : ∀ r ∈ rs, ∃ b, testRule compile r subject = .ok b) :
    testRuleEvery compile rs subject = .ok (rs.all (fun r => evalRuleB compile r subject)) := by
  induction rs with
  | nil => rfl
  | cons r rs ih =>
    obtain ⟨b, hb⟩ := h r (List.mem_cons_self r rs)
    have hrest : ∀ r ∈ rs, ∃ b, testRule compile r subject = .ok b :=
      fun r hr => h r (List.mem_cons_of_mem _ hr)
    have hev : evalRuleB compile r subject = b := by
      rw [evalRuleB, hb]
    cases b with
    | false =>
      rw [testRuleEvery, hb]
      simp [List.all_cons, hev]
    | true =>
      rw [testRuleEvery, hb, ih hrest]
      simp [List.all_cons, hev]

/-- Claim C6: testRule returns the pattern test for a regex rule, the
compiled-pattern test for a string rule, the coerced boolean result for a
function rule, the conjunction of the member results for a list of rules
(when every member evaluates without error), and an invalid-rule error for
any other shape. -/
theorem C6_testRule_shapes (compile : String → String → Bool) (subject : String) :
    (∀ test : String → Bool, testRule compile (.regex test) subject = .ok (test subject)) ∧
    (∀ p : String, testRule compile (.strPat p) subject = .ok (compile p subject)) ∧
    (∀ f : String → Bool, testRule compile (.func f) subject = .ok (f subject)) ∧
    (∀ rs : List RuleV, (∀ r ∈ rs, ∃ b, testRule compile r subject = .ok b) →
      testRule compile (.list rs) subject =
        .ok (rs.all (fun r => evalRuleB compile r subject))) ∧
    testRule compile .other subject = .error "Invalid include / exclude rule" := by
  refine ⟨fun _ => rfl, fun _ => rfl, fun _ => rfl, fun rs h => ?_, rfl⟩
  rw [testRule]
  exact testRuleEvery_all compile subject rs h

/-- A compile function usable in witnesses: the embedding of compiling a
pattern with no special characters and no anchors restricted to exact
matches, so a pattern matches exactly the subject equal to it. -/
def compileEq (pattern subject : String) : Bool := pattern == subject

/-- The embedding of the regular expression `/\.css$/`: the subject ends
with the four characters ".css". -/
def endsCssB (s : String) : Bool := s.data.reverse.take 4 == ".css".data.reverse

/-- Witness for C6: the list clause applied to a concrete rule list whose
members all evaluate without error. -/
theorem C6_testRule_witness :
    testRule compileEq (.list [.func endsCssB, .strPat "b.css"]) "b.css" = .ok true := by
  have h := (C6_testRule_shapes compileEq "b.css").2.2.2.1
    [.func endsCssB, .strPat "b.css"]
    (by
      intro r hr
      simp only [List.mem_cons, List.not_mem_nil, or_false] at hr
      rcases hr with rfl | rfl
      · exact ⟨endsCssB "b.css", rfl⟩
      · exact ⟨compileEq "b.css" "b.css", rfl⟩)
  rw [h]
  have hall : ([RuleV.func endsCssB, RuleV.strPat "b.css"].all
      fun r => evalRuleB compileEq r "b.css") = true := by
    decide
  rw [hall]

/-- helpers.ts lines 7-10: a file descriptor with a storage-relative name and
a local filesystem path. -/
structure File where
  name : String
  path : String
deriving DecidableEq

/-- helpers.ts lines 12-14. -/
def UPLOAD_IGNORES : List String := [".DS_Store"]

/-- s3_plugin.ts lines 257-259 (`isIgnoredFile`): some ignore pattern,
compiled as a regular expression, matches the file name. -/
def isIgnoredFile (compile : String → String → Bool) (file : String) : Bool :=
  UPLOAD_IGNORES.any (fun ignore => compile ignore file)

/-- s3_plugin.ts lines 261-270 (`isIncludeAndNotExclude`): the include rule
defaults to passing, the exclude rule to not matching; both are evaluated
before the conjunction, so an exception from either propagates. -/
def isIncludeAndNotExclude (compile : String → String → Bool)
    (includeR excludeR : Option RuleV) (file : String) : Except String Bool :=
  match (match includeR with
         | some r => testRule compile r file
         | none => .ok true) with
  | .error e => .error e
  | .ok isInclude =>
    match (match excludeR with
           | some r => testRule compile r file
           | none => .ok false) with
    | .error e => .error e
    | .ok isExclude => .ok (isInclude && !isExclude)

/-- s3_plugin.ts lines 245-255 (`filterAllowedFiles`): a reduce that pushes a
file when `isIncludeAndNotExclude(file.name) && !isIgnoredFile(file.name)`;
an exception thrown while evaluating a rule aborts the whole pass. -/
def filterAllowedFiles (compile : String → String → Bool)
    (includeR excludeR : Option RuleV) : List File → Except String (List File)
  | [] => .ok []
  | f :: fs =>
    match isIncludeAndNotExclude compile includeR excludeR f.name with
    | .error e => .error e
    | .ok b =>
      match filterAllowedFiles compile includeR excludeR fs with
      | .error e => .error e
      | .ok rest =>
        .ok (if b && !(isIgnoredFile compile f.name) then f :: rest else rest)

/-- The boolean keep-predicate of `filterAllowedFiles`, reading a rule
evaluation error as not keeping the file. -/
def keepFile (compile : String → String → Bool)
    (includeR excludeR : Option RuleV) (f : File) : Bool :=
  (match isIncludeAndNotExclude compile includeR excludeR f.name with
   | .ok b => b
   | .error _ => false) && !(isIgnoredFile compile f.name)

theorem filterAllowedFiles_keep (compile : String → String → Bool)
    (includeR excludeR : Option RuleV) (files : List File)
    (h : ∀ f ∈ files, ∃ b,
      isIncludeAndNotExclude compile includeR excludeR f.name = .ok b) :
    filterAllowedFiles compile includeR excludeR files =
      .ok (files.filter (keepFile compile includeR excludeR)) := by
  induction files with
  | nil => rfl
  | cons f fs ih =>
    obtain ⟨b, hb⟩ := h f (List.mem_cons_self f fs)
    have hrest := ih (fun g hg => h g (List.mem_cons_of_mem _ hg))
    rw [filterAllowedFiles, hb, hrest]
    have hk : keepFile compile includeR excludeR f =
        (b && !(isIgnoredFile compile f.name)) := by
      rw [keepFile, hb]
    rw [List.filter_cons, hk]

theorem filterAllowedFiles_not_ignored (compile : String → String → Bool)
    (includeR excludeR : Option RuleV) (files : List File) (l : List File)
    (h : filterAllowedFiles compile includeR excludeR files = .ok l) :
    ∀ f ∈ l, isIgnoredFile compile f.name = false := by
  induction files generalizing l with
  | nil =>
    rw [filterAllowedFiles] at h
    cases h
    intro f hf
    cases hf
  | cons g fs ih =>
    rw [filterAllowedFiles] at h
    cases hinc : isIncludeAndNotExclude compile includeR excludeR g.name with
    | error e => rw [hinc] at h; cases h
    | ok b =>
      rw [hinc] at h
      cases hrec : filterAllowedFiles compile includeR excludeR fs with
      | error e => rw [hrec] at h; cases h
      | ok rest =>
        rw [hrec] at h
        cases h
        intro f hf
        by_cases hcond : (b && !(isIgnoredFile compile g.name)) = true
        · rw [hcond] at hf
          simp only [if_true] at hf
          rcases List.mem_cons.mp hf with rfl | hmem
          · have := (Bool.and_eq_true _ _).mp hcond
            simpa using this.2
          · exact ih rest hrec f hmem
        · rw [eq_false_of_ne_true hcond] at hf
          simp only [Bool.false_eq_true, if_false] at hf
          exact ih rest hrec f hf

theorem isIncNotExc_exclude_false (compile : String → String → Bool)
    (includeR : Option RuleV) (r : RuleV) (name : String) (b : Bool)
    (hex : testRule compile r name = .ok true)
    (h : isIncludeAndNotExclude compile includeR (some r) name = .ok b) :
    b = false := by
  cases b with
  | false => rfl
  | true =>
    exfalso
    rw [isIncludeAndNotExclude.eq_def] at h
    cases hi : (match includeR with
                | some rr => testRule compile rr name
                | none => (Except.ok true : Except String Bool)) with
    | error e => rw [hi] at h; simp at h
    | ok isInc => rw [hi] at h; simp [hex] at h

theorem filterAllowedFiles_not_excluded (compile : String → String → Bool)
    (includeR : Option RuleV) (r : RuleV) (files : List File) (l : List File)
    (h : filterAllowedFiles compile includeR (some r) files = .ok l) :
    ∀ f ∈ l, testRule compile r f.name ≠ .ok true := by
  induction files generalizing l with
  | nil =>
    rw [filterAllowedFiles] at h
    cases h
    intro f hf
    cases hf
  | cons g fs ih =>
    rw [filterAllowedFiles] at h
    cases hinc : isIncludeAndNotExclude compile includeR (some r) g.name with
    | error e => rw [hinc] at h; cases h
    | ok b =>
      rw [hinc] at h
      cases hrec : filterAllowedFiles compile includeR (some r) fs with
      | error e => rw [hrec] at h; cases h
      | ok rest =>
        rw [hrec] at h
        cases h
        intro f hf
        by_cases hcond : (b && !(isIgnoredFile compile g.name)) = true
        · rw [hcond] at hf
          simp only [if_true] at hf
          rcases List.mem_cons.mp hf with rfl | hmem
          · intro hex
            have hb : b = true := ((Bool.and_eq_true _ _).mp hcond).1
            have hbf : b = false :=
              isIncNotExc_exclude_false compile includeR r f.name b hex hinc
            rw [hb] at hbf
            cases hbf
          · exact ih rest hrec f hmem
        · rw [eq_false_of_ne_true hcond] at hf
          simp only [Bool.false_eq_true, if_false] at hf
          exact ih rest hrec f hf

/-- Claim C7: filterAllowedFiles keeps exactly the files that pass the
include rule (or no include rule is configured), do not match the exclude
rule, and do not match any ignore pattern; a file matching an ignore pattern
is never in the result, and a file matching the exclude rule is absent even
when it also matches the include rule. -/
theorem C7_filterAllowedFiles (compile : String → String → Bool)
    (includeR excludeR : Option RuleV) (files : List File) :
    ((∀ f ∈ files, ∃ b,
        isIncludeAndNotExclude compile includeR excludeR f.name = .ok b) →
      filterAllowedFiles compile includeR excludeR files =
        .ok (files.filter (keepFile compile includeR excludeR))) ∧
    (∀ l, filterAllowedFiles compile includeR excludeR files = .ok l →
      ∀ f ∈ l, isIgnoredFile compile f.name = false) ∧
    (∀ l r, excludeR = some r →
      filterAllowedFiles compile includeR excludeR files = .ok l →
      ∀ f ∈ l, testRule compile r f.name ≠ .ok true) := by
  refine ⟨fun h => filterAllowedFiles_keep compile includeR excludeR files h,
    fun l h => filterAllowedFiles_not_ignored compile includeR excludeR files l h,
    fun l r hr h => ?_⟩
  subst hr
  exact filterAllowedFiles_not_excluded compile includeR r files l h

/-- Witness for C7: a concrete run keeping "a.js", dropping the ignored
".DS_Store" and the excluded "b.css" even though the include rule matches
every file. -/
theorem C7_filterAllowedFiles_witness :
    filterAllowedFiles compileEq (some (.func (fun _ => true)))
        (some (.func endsCssB))
        [⟨"a.js", "out/a.js"⟩, ⟨"b.css", "out/b.css"⟩, ⟨".DS_Store", "out/.DS_Store"⟩] =
      .ok [⟨"a.js", "out/a.js"⟩] := by
  have h := (C7_filterAllowedFiles compileEq (some (.func (fun _ => true)))
      (some (.func endsCssB))
      [⟨"a.js", "out/a.js"⟩, ⟨"b.css", "out/b.css"⟩, ⟨".DS_Store", "out/.DS_Store"⟩]).1
    (by
      intro f hf
      exact ⟨(fun _ => true) f.name && !(endsCssB f.name), rfl⟩)
  rw [h]
  rfl

/-- s3_plugin.ts lines 305-313 (`prioritizeFiles`): each priority pattern,
in order, removes from the remaining files those whose name it matches
(`_.remove` keeps relative order of both the removed and the remaining
elements); the files matching no pattern form the head of the result,
followed by the removed groups in pattern order.  A pattern is embedded as
its test function on the file name. -/
def prioritizeAux : List (String → Bool) → List File → List File × List (List File)
  | [], remaining => (remaining, [])
  | p :: ps, remaining =>
    let removed := remaining.filter (fun f => p f.name)
    let rest := remaining.filter (fun f => !(p f.name))
    let r := prioritizeAux ps rest
    (r.1, removed :: r.2)

/-- s3_plugin.ts line 312: `[remainingFiles, ...prioritizedFiles]`. -/
def prioritizeFiles (priority : List (String → Bool)) (files : List File) :
    List (List File) :=
  (prioritizeAux priority files).1 :: (prioritizeAux priority files).2

/-- A file matches none of the given patterns. -/
def matchesNone (ps : List (String → Bool)) (f : File) : Bool :=
  ps.all (fun p => !(p f.name))

/-- The spec reading of the tiers after the first: one tier per pattern in
pattern order, holding the files that match that pattern and no earlier
pattern, in their original relative order. -/
def specTiers (earlier : List (String → Bool)) :
    List (String → Bool) → List File → List (List File)
  | [], _ => []
  | p :: ps, files =>
    files.filter (fun f => p f.name && matchesNone earlier f) ::
      specTiers (earlier ++ [p]) ps files

theorem matchesNone_append (ps qs : List (String → Bool)) (f : File) :
    matchesNone (ps ++ qs) f = (matchesNone ps f && matchesNone qs f) := by
  simp [matchesNone, List.all_append]

theorem prioritizeAux_spec (ps : List (String → Bool))
    (earlier : List (String → Bool)) (files : List File) :
    prioritizeAux ps (files.filter (matchesNone earlier)) =
      (files.filter (matchesNone (earlier ++ ps)), specTiers earlier ps files) := by
  induction ps generalizing earlier with
  | nil =>
    rw [prioritizeAux, specTiers]
    simp
  | cons p ps ih =>
    rw [prioritizeAux, specTiers]
    have hremoved : (files.filter (matchesNone earlier)).filter (fun f => p f.name) =
        files.filter (fun f => p f.name && matchesNone earlier f) :=
      List.filter_filter _ _
    have hrest : (files.filter (matchesNone earlier)).filter (fun f => !(p f.name)) =
        files.filter (matchesNone (earlier ++ [p])) := by
      rw [List.filter_filter]
      refine List.filter_congr (fun f _ => ?_)
      simp [matchesNone_append, matchesNone, Bool.and_comm]
    rw [hremoved, hrest, ih (earlier ++ [p])]
    simp [List.append_assoc]

/-- Claim C5: prioritizeFiles partitions the files into a first tier of the
files matching no priority pattern, in original relative order, followed by
one tier per pattern in pattern order, each holding the files matching that
pattern and no earlier pattern; with tiers [/\.css$/] and files
[a.js, b.css] the grouping is [[a.js], [b.css]]. -/
theorem C5_prioritizeFiles :
    (∀ (ps : List (String → Bool)) (files : List File),
      prioritizeFiles ps files = files.filter (matchesNone ps) :: specTiers [] ps files) ∧
    prioritizeFiles [endsCssB] [⟨"a.js", "out/a.js"⟩, ⟨"b.css", "out/b.css"⟩] =
      [[⟨"a.js", "out/a.js"⟩], [⟨"b.css", "out/b.css"⟩]] := by
  constructor
  · intro ps files
    have hfiles : files.filter (matchesNone []) = files := by
      have : ∀ f ∈ files, matchesNone [] f = true := fun f _ => rfl
      rw [List.filter_congr this, List.filter_true]
    have h := prioritizeAux_spec ps [] files
    rw [hfiles] at h
    rw [prioritizeFiles, h]
    simp
  · decide

/-- The flat upload-parameter record the claims need: the computed fields
`Key` and `Body`, the defaulted `ACL`, the inferred `ContentType` and the
required `Bucket`.  A `none` field is an absent (undefined) property. -/
structure S3Params where
  Key : Option String := none
  Body : Option String := none
  ACL : Option String := none
  ContentType : Option String := none
  Bucket : Option String := none
deriving DecidableEq

/-- helpers.ts lines 16-18: `DEFAULT_UPLOAD_OPTIONS = {ACL: 'public-read'}`. -/
def DEFAULT_UPLOAD_OPTIONS : S3Params := { ACL := some "public-read" }

/-- One field of `_.merge(dst, src)`: a defined source value overrides the
destination, an undefined one leaves it. -/
def mergeField (dst src : Option String) : Option String :=
  match src with
  | some v => some v
  | none => dst

/-- `_.merge` (s3_plugin.ts line 368) over the flat record: field-wise, the
later object wins where it defines a value. -/
def mergeParams (dst src : S3Params) : S3Params :=
  { Key := mergeField dst.Key src.Key
    Body := mergeField dst.Body src.Body
    ACL := mergeField dst.ACL src.ACL
    ContentType := mergeField dst.ContentType src.ContentType
    Bucket := mergeField dst.Bucket src.Bucket }

/-- s3_plugin.ts lines 359-363: if the resolved template has no ContentType,
set it from `mime.getType(fileName)` when that returns one.  `mimeType`
stands for the result of the mime lookup on the file name. -/
def resolveContentType (template : S3Params) (mimeType : Option String) : S3Params :=
  match template.ContentType with
  | some _ => template
  | none =>
    match mimeType with
    | some ct => { template with ContentType := some ct }
    | none => template

/-- s3_plugin.ts line 368:
`_.merge({Key, Body}, DEFAULT_UPLOAD_OPTIONS, s3Params)` — the request the
client's upload call receives.  `template` is `s3Params`, i.e. the
upload-option template with any function values already resolved
(lines 352-354). -/
def buildUploadRequest (key body : String) (template : S3Params)
    (mimeType : Option String) : S3Params :=
  mergeParams (mergeParams { Key := some key, Body := some body }
    DEFAULT_UPLOAD_OPTIONS) (resolveContentType template mimeType)

/-- Claim C10: the final request merges the computed {Key, Body}, the default
{ACL: public-read} and the resolved template in that order with later values
winning; a template ACL overrides the default, and a template Key or Body
silently replaces the computed key or content stream. -/
theorem C10_merge_precedence (key body : String) (template : S3Params)
    (mimeType : Option String) :
    ((buildUploadRequest key body template mimeType).ACL =
      mergeField (some "public-read") template.ACL) ∧
    ((buildUploadRequest key body template mimeType).Key =
      mergeField (some key) template.Key) ∧
    ((buildUploadRequest key body template mimeType).Body =
      mergeField (some body) template.Body) ∧
    (∀ k, template.Key = some k →
      (buildUploadRequest key body template mimeType).Key = some k) ∧
    (∀ b, template.Body = some b →
      (buildUploadRequest key body template mimeType).Body = some b) := by
  have hct : (resolveContentType template mimeType).Key = template.Key ∧
      (resolveContentType template mimeType).Body = template.Body ∧
      (resolveContentType template mimeType).ACL = template.ACL := by
    rw [resolveContentType.eq_def]
    cases template.ContentType with
    | some ct => exact ⟨rfl, rfl, rfl⟩
    | none =>
      cases mimeType with
      | some ct => exact ⟨rfl, rfl, rfl⟩
      | none => exact ⟨rfl, rfl, rfl⟩
  obtain ⟨hk, hb, ha⟩ := hct
  refine ⟨?_, ?_, ?_, ?_, ?_⟩
  · show mergeField (mergeField none (some "public-read"))
      (resolveContentType template mimeType).ACL = _
    rw [ha]; rfl
  · show mergeField (mergeField (some key) none)
      (resolveContentType template mimeType).Key = _
    rw [hk]; rfl
  · show mergeField (mergeField (some body) none)
      (resolveContentType template mimeType).Body = _
    rw [hb]; rfl
  · intro k hk2
    show mergeField (mergeField (some key) none)
      (resolveContentType template mimeType).Key = some k
    rw [hk, hk2]; rfl
  · intro b hb2
    show mergeField (mergeField (some body) none)
      (resolveContentType template mimeType).Body = some b
    rw [hb, hb2]; rfl

/-- Witness for C10: a template carrying its own Key, Body and ACL replaces
the computed key "test/a.js", the computed body and the default ACL. -/
theorem C10_merge_precedence_witness :
    (buildUploadRequest "test/a.js" "stream:out/a.js"
        { Key := some "custom", Body := some "other", ACL := some "private",
          Bucket := some "b" } (some "application/javascript")).Key = some "custom" ∧
    (buildUploadRequest "test/a.js" "stream:out/a.js"
        { Key := some "custom", Body := some "other", ACL := some "private",
          Bucket := some "b" } (some "application/javascript")).Body = some "other" := by
  constructor
  · exact (C10_merge_precedence "test/a.js" "stream:out/a.js"
      { Key := some "custom", Body := some "other", ACL := some "private",
        Bucket := some "b" } (some "application/javascript")).2.2.2.1 "custom" rfl
  · exact (C10_merge_precedence "test/a.js" "stream:out/a.js"
      { Key := some "custom", Body := some "other", ACL := some "private",
        Bucket := some "b" } (some "application/javascript")).2.2.2.2 "other" rfl

/-- helpers.ts line 20: `REQUIRED_S3_UP_OPTS = ['Bucket']`. -/
def REQUIRED_S3_UP_OPTS : List String := ["Bucket"]

/-- JavaScript truthiness of an optional string property: absent
(`undefined`) and the empty string are falsy. -/
def truthyOpt : Option String → Bool
  | some s => !s.data.isEmpty
  | none => false

/-- Property lookup on the flat upload-option template, for the keys the
required-option check can name. -/
def lookupOpt (t : S3Params) : String → Option String
  | "Bucket" => t.Bucket
  | "Key" => t.Key
  | "Body" => t.Body
  | "ACL" => t.ACL
  | "ContentType" => t.ContentType
  | _ => none

/-- s3_plugin.ts lines 127-130:
`_.every(REQUIRED_S3_UP_OPTS, (type) => this.uploadOptions[type])`. -/
def hasRequiredUploadOpts (t : S3Params) : Bool :=
  REQUIRED_S3_UP_OPTS.all (fun k => truthyOpt (lookupOpt t k))

/-- s3_plugin.ts lines 141-165 (the done-hook body): when a required upload
option is missing, push exactly one error string into the compilation's
error list and return before touching any file; otherwise run the rest of
the pass.  `pipeline` abstracts the rest of the pass as the pair of the
errors it pushes and the storage keys of the upload requests it issues. -/
def doneHook (t : S3Params) (pipeline : List String × List String) :
    List String × List String :=
  if hasRequiredUploadOpts t then pipeline
  else (["S3Plugin-RequiredS3UploadOpts: " ++ String.intercalate ", " REQUIRED_S3_UP_OPTS],
    [])

/-- Claim C4: with the required Bucket missing from the upload-option
template, the done hook records exactly one configuration error and issues
zero upload requests, whatever the rest of the pass would have done. -/
theorem C4_missing_bucket (t : S3Params) (pipeline : List String × List String)
    (h : t.Bucket = none) :
    (doneHook t pipeline).1.length = 1 ∧ (doneHook t pipeline).2 = [] := by
  have hreq : hasRequiredUploadOpts t = false := by
    rw [hasRequiredUploadOpts, REQUIRED_S3_UP_OPTS]
    simp [lookupOpt, h, truthyOpt]
  rw [doneHook, hreq]
  exact ⟨rfl, rfl⟩

/-- Witness for C4: a template with only a Key set, against a pipeline that
would have pushed no error and uploaded one key. -/
theorem C4_missing_bucket_witness :
    (doneHook { Key := some "test/a.js" } ([], ["test/a.js"])).1.length = 1 ∧
    (doneHook { Key := some "test/a.js" } ([], ["test/a.js"])).2 = [] :=
  C4_missing_bucket { Key := some "test/a.js" } ([], ["test/a.js"]) rfl

/-- s3_plugin.ts line 36: `DistributionId: string | string[]`. -/
inductive DistId where
  | str (s : String)
  | list (l : List String)

/-- s3_plugin.ts lines 35-38: the cloudfrontInvalidateOptions record. -/
structure CFOpts where
  DistributionId : DistId
  Items : List String

/-- One `createInvalidation` request (s3_plugin.ts lines 399-407), minus the
wall-clock caller reference. -/
structure CFRequest where
  DistributionId : String
  Quantity : Nat
  Items : List String
deriving DecidableEq

/-- Truthiness of the DistributionId field (line 379): an empty string is
falsy, an array (even empty) is truthy. -/
def distTruthy : DistId → Bool
  | .str s => !s.data.isEmpty
  | .list _ => true

/-- s3_plugin.ts lines 391-394: a scalar identifier is wrapped into a
one-element array. -/
def normalizeDistributionId : DistId → List String
  | .str s => [s]
  | .list l => l

/-- s3_plugin.ts lines 376-419 (`invalidateCloudfront`): the invalidation
requests issued — none when the options are absent or the identifier field
is falsy, otherwise one request per identifier in the normalized list. -/
def invalidationRequests : Option CFOpts → List CFRequest
  | none => []
  | some o =>
    if distTruthy o.DistributionId then
      (normalizeDistributionId o.DistributionId).map
        (fun id => ⟨id, o.Items.length, o.Items⟩)
    else []

/-- The settlement of the promise invalidateCloudfront returns: the no-op
branch resolves with null, the other branch is `Promise.all` over one
promise per request, each resolving exactly when its `createInvalidation`
callback reports no error.  `fails` tells which individual requests fail. -/
def invalidateResolves (opts : Option CFOpts) (fails : CFRequest → Bool) : Bool :=
  (invalidationRequests opts).all (fun r => !(fails r))

/-- Claim C8: invalidateCloudfront is a no-op without a distribution
identifier, wraps a scalar identifier into a one-element list issuing
exactly one request, issues one request per identifier of a list, and its
aggregate resolves exactly when every individual request succeeds. -/
theorem C8_invalidateCloudfront (items : List String) (fails : CFRequest → Bool) :
    (invalidationRequests none = [] ∧ invalidateResolves none fails = true) ∧
    (∀ s : String, s.data ≠ [] →
      invalidationRequests (some ⟨.str s, items⟩) = [⟨s, items.length, items⟩]) ∧
    (∀ ids : List String,
      invalidationRequests (some ⟨.list ids, items⟩) =
        ids.map (fun id => ⟨id, items.length, items⟩)) ∧
    (∀ opts : Option CFOpts,
      invalidateResolves opts fails = true ↔
        ∀ r ∈ invalidationRequests opts, fails r = false) := by
  refine ⟨⟨rfl, rfl⟩, fun s hs => ?_, fun ids => ?_, fun opts => ?_⟩
  · rw [invalidationRequests]
    have : distTruthy (.str s) = true := by
      rw [distTruthy]
      simp [List.isEmpty_iff, hs]
    rw [this]
    rfl
  · rfl
  · rw [invalidateResolves, List.all_eq_true]
    constructor
    · intro h r hr
      have := h r hr
      simpa using this
    · intro h r hr
      simp [h r hr]

/-- Witness for C8: the scalar clause at the single-identifier options of
the end-to-end example, and the aggregate clause at those options. -/
theorem C8_invalidateCloudfront_witness :
    invalidationRequests (some ⟨.str "E123", ["/*"]⟩) = [⟨"E123", 1, ["/*"]⟩] ∧
    invalidateResolves (some ⟨.str "E123", ["/*"]⟩) (fun _ => false) = true := by
  constructor
  · exact (C8_invalidateCloudfront ["/*"] (fun _ => false)).2.1 "E123" (by decide)
  · exact ((C8_invalidateCloudfront ["/*"] (fun _ => false)).2.2.2
      (some ⟨.str "E123", ["/*"]⟩)).mpr (fun r hr => rfl)

/-- A promise term, sufficient to trace what the promise returned by
`uploadFiles` settles on.  `task name` is the promise of the upload started
for the file called `name` (s3_plugin.ts line 373, `upload.promise()`);
`allOf` is `Promise.all` over an array of promises; `thenRetValue p` is
`p.then(cb)` for a callback returning a plain value (undefined included);
`thenRetProm p q` is `p.then(cb)` for a callback returning the promise `q`;
`thenThrows p` is `p.then(cb)` for a callback that throws synchronously. -/
inductive Prom where
  | settledOk : Prom
  | task (name : String) : Prom
  | allOf (ps : List Prom) : Prom
  | thenRetValue (p : Prom) : Prom
  | thenRetProm (p : Prom) (q : Prom) : Prom
  | thenThrows (p : Prom) : Prom

mutual

/-- The upload tasks whose settlement gates the settlement of a promise:
a `then` result settles as soon as its source settles when the callback
returns a plain value or throws, and additionally waits on the returned
promise otherwise. -/
def awaitedTasks : Prom → List String
  | .settledOk => []
  | .task n => [n]
  | .allOf ps => awaitedTasksList ps
  | .thenRetValue p => awaitedTasks p
  | .thenRetProm p q => awaitedTasks p ++ awaitedTasks q
  | .thenThrows p => awaitedTasks p

/-- The union of the awaited tasks of a list of promises. -/
def awaitedTasksList : List Prom → List String
  | [] => []
  | p :: ps => awaitedTasks p ++ awaitedTasksList ps

end

mutual

/-- Whether a promise fulfills, given which upload tasks fulfill:
`Promise.all` rejects as soon as one member rejects; a `then` whose callback
throws always yields a rejected promise (either the source rejected, or the
callback ran and threw). -/
def resolvesOk (env : String → Bool) : Prom → Bool
  | .settledOk => true
  | .task n => env n
  | .allOf ps => resolvesOkList env ps
  | .thenRetValue p => resolvesOk env p
  | .thenRetProm p q => resolvesOk env p && resolvesOk env q
  | .thenThrows _ => false

/-- Whether every promise of a list fulfills. -/
def resolvesOkList (env : String → Bool) : List Prom → Bool
  | [] => true
  | p :: ps => resolvesOk env p && resolvesOkList env ps

end

/-- s3_plugin.ts lines 279-283 (`transformBasePath`) with the default
transform: `Promise.resolve(basePathTransform(basePath))` followed by two
`.then` callbacks that return strings — a chain over already-settled
promises awaiting no upload task. -/
def transformBasePathProm : Prom := .thenRetValue (.thenRetValue .settledOk)

/-- What one call of `uploadFiles` produces. -/
structure UploadFilesResult where
  returned : Prom
  startedUploads : List String
  dropped : List Prom

/-- s3_plugin.ts lines 332-348 (`uploadFiles`): the returned promise is
`this.transformBasePath().then(cb)`.

Without priority, `cb` maps the files through `uploadFile`, which calls
`client.upload(...)` — starting one upload per file — and returns
`{upload, promise}` objects.  `Promise.all(uploadFiles)` (line 345) is built
over those plain objects, which are not thenables, so that aggregate settles
immediately; more importantly its value is discarded — `cb` has no `return`,
so it returns `undefined` and the promise `uploadFiles` returns settles with
`transformBasePath` alone.

With priority, `cb` calls `uploadInPriorityOrder` (lines 323-330): it
partitions the files, wraps each chunk upload in a thunk, and evaluates
`uploadFunctions.map(Promise.resolve)`.  `Promise.resolve` invoked as a bare
function has an undefined `this` and throws a TypeError before any thunk is
invoked, so no upload starts and the thrown exception rejects the promise
`.then` returned. -/
def uploadFilesModel (priorityConfigured : Bool) (files : List File) :
    UploadFilesResult :=
  if priorityConfigured then
    { returned := .thenThrows transformBasePathProm
      startedUploads := []
      dropped := [] }
  else
    { returned := .thenRetValue transformBasePathProm
      startedUploads := files.map (fun f => f.name)
      dropped := [Prom.allOf (files.map (fun _ => Prom.settledOk))] }

/-- Claim C1 fails on the code: for the one-file list [a.js] without
priority, the upload is started but the promise uploadFiles returns awaits
no upload task and fulfills even when the upload rejects (the aggregate is
never returned from the then-callback); with priority configured, no upload
is ever started and the returned promise rejects regardless of any upload
outcome.  The claim says the promise settles only after every upload settles
and rejects when one upload rejects. -/
theorem C1_uploadFiles_detached :
    (uploadFilesModel false [⟨"a.js", "out/a.js"⟩]).startedUploads = ["a.js"] ∧
    awaitedTasks (uploadFilesModel false [⟨"a.js", "out/a.js"⟩]).returned = [] ∧
    resolvesOk (fun _ => false)
      (uploadFilesModel false [⟨"a.js", "out/a.js"⟩]).returned = true ∧
    (uploadFilesModel true [⟨"a.js", "out/a.js"⟩]).startedUploads = [] ∧
    resolvesOk (fun _ => true)
      (uploadFilesModel true [⟨"a.js", "out/a.js"⟩]).returned = false :=
  ⟨rfl, rfl, rfl, rfl, rfl⟩

end S3P
